import Mathlib

/-!
Verification development for the encrypted-container synchronization core of
SecureNotesMobile (src/src/lib/crypto.ts, src/App.tsx handlers, and
src/src/lib/storage/SafProvider.ts), shallowly embedded over byte lists
(a byte is a Nat).

The AES block transform and the PBKDF2 hash live in the crypto-js library,
whose code is not part of this repository; they are kept abstract
(function parameters), while the repository code built on top of them —
IV handling, CBC chaining over 16-byte blocks, PKCS7 padding, container
layout, and the session orchestrator — is translated faithfully.
-/

namespace SecureNotes

/-- Hash algorithm tag passed to the key-derivation function; the source
passes CryptoJS.algo.SHA256. -/
inductive Hasher
  | SHA256
deriving DecidableEq

/-- deriveKey from crypto.ts lines 4-15: calls PBKDF2 with the given password
and salt, keySize 256 / 32 words, 100000 iterations, SHA256 hasher, and
returns the Base64 string of the key.  The PBKDF2 computation itself is
crypto-js library code, kept abstract as the parameter pbkdf2. -/
def deriveKey (pbkdf2 : Hasher → String → List Nat → Nat → Nat → String)
    (password : String) (salt : List Nat) : String :=
  pbkdf2 Hasher.SHA256 password salt 100000 (256 / 32)

/-- Pointwise XOR of two byte lists (truncating to the shorter), as done by
the CBC block mode on 32-bit words. -/
def xorBytes (a b : List Nat) : List Nat :=
  List.zipWith Nat.xor a b

/-- The 12 random IV bytes are handed to crypto-js as a 3-word WordArray;
CBC XORs four words per 16-byte block and the missing fourth word behaves
as zero, so the effective CBC IV is the 12 bytes followed by 4 zero bytes. -/
def effectiveIv (iv : List Nat) : List Nat :=
  iv ++ List.replicate 4 0

/-- PKCS7 padding to the 16-byte AES block size (CryptoJS.pad.Pkcs7 on the
encryption side): append padLen copies of padLen where
padLen = 16 - length % 16, always between 1 and 16. -/
def pkcs7pad (bs : List Nat) : List Nat :=
  bs ++ List.replicate (16 - bs.length % 16) (16 - bs.length % 16)

/-- Modelled from the spec: PKCS-style un-padding with validation.  The
un-padding is performed inside crypto-js (not repository code); per the spec
(section 4.2) decryption fails when the padding is invalid, so the model
reads the last byte n and strips n bytes only when 1 <= n <= 16, n does not
exceed the length, and the last n bytes all equal n; otherwise it fails. -/
def pkcs7unpad (bs : List Nat) : Option (List Nat) :=
  let n := bs.getLastD 0
  if n = 0 ∨ 16 < n ∨ bs.length < n then none
  else if bs.drop (bs.length - n) = List.replicate n n then
    some (bs.take (bs.length - n))
  else none

/-- Split a byte list into consecutive 16-byte blocks (the last block may be
short when the length is not a multiple of 16), mirroring how the AES-CBC
mode consumes the data WordArray block by block. -/
def chunk16 (bs : List Nat) : List (List Nat) :=
  if bs.isEmpty then []
  else bs.take 16 :: chunk16 (bs.drop 16)
termination_by bs.length
decreasing_by
  simp only [List.length_drop]
  have hne : bs ≠ [] := by
    intro h
    subst h
    simp [List.isEmpty] at *
  have : 0 < bs.length := List.length_pos.mpr hne
  omega

/-- CBC encryption over a list of plaintext blocks: each block is XORed with
the previous ciphertext block (initially the IV) and passed through the
block transform E. -/
def cbcEncryptBlocks (E : List Nat → List Nat) : List Nat → List (List Nat) → List (List Nat)
  | _, [] => []
  | prev, b :: rest =>
    let c := E (xorBytes prev b)
    c :: cbcEncryptBlocks E c rest

/-- CBC decryption over a list of ciphertext blocks: each block is passed
through the inverse block transform D and XORed with the previous
ciphertext block (initially the IV). -/
def cbcDecryptBlocks (D : List Nat → List Nat) : List Nat → List (List Nat) → List (List Nat)
  | _, [] => []
  | prev, c :: rest =>
    xorBytes prev (D c) :: cbcDecryptBlocks D c rest

/-- encryptData from crypto.ts lines 17-65: given the freshly drawn 12-byte
IV (the random draw is passed in explicitly), AES-CBC-encrypt the PKCS7
padded data under the Base64 key and return IV concatenated with the
ciphertext bytes.  The AES block transform is the abstract parameter enc,
applied to the key string (crypto-js parses the Base64 key internally). -/
def encryptData (enc : String → List Nat → List Nat) (iv : List Nat)
    (data : List Nat) (keyBase64 : String) : List Nat :=
  iv ++ (cbcEncryptBlocks (enc keyBase64) (effectiveIv iv) (chunk16 (pkcs7pad data))).flatten

/-- The raw CBC decryption layer of decryptData (crypto.ts lines 67-98):
slice the first 12 bytes as the IV, CBC-decrypt the remainder under the
abstract AES inverse block transform dec, before any un-padding. -/
def cbcRawDecrypt (dec : String → List Nat → List Nat) (data : List Nat)
    (keyBase64 : String) : List Nat :=
  (cbcDecryptBlocks (dec keyBase64) (effectiveIv (data.take 12)) (chunk16 (data.drop 12))).flatten

/-- decryptData from crypto.ts lines 67-98: slice the first 12 bytes as the
IV, CBC-decrypt the remainder and validate-strip the PKCS7 padding; a
padding failure is a decryption error (none). -/
def decryptData (dec : String → List Nat → List Nat) (data : List Nat)
    (keyBase64 : String) : Option (List Nat) :=
  pkcs7unpad ((cbcDecryptBlocks (dec keyBase64) (effectiveIv (data.take 12)) (chunk16 (data.drop 12))).flatten)

/-- generateSalt from crypto.ts returns 16 random bytes; only its length is
relevant to the embedding. -/
def generateSaltLength : Nat := 16

/-- The AppState union type of App.tsx. -/
inductive AppState
  | WELCOME
  | CREATE_DB_NAME
  | UNLOCK
  | CREATE_PASSWORD
  | READY
deriving DecidableEq

/-- The React state owned by the App component: screen state, loading flag,
error banner text, last popup alert, raw container bytes read from storage,
session master key (Base64 string) and session salt. -/
structure AppSt where
  state : AppState
  loading : Bool
  error : String
  lastAlert : Option String
  encryptedData : Option (List Nat)
  masterKey : Option String
  salt : Option (List Nat)
deriving DecidableEq

/-- The fixed 15-byte SQLite header signature checked by handleUnlock
(App.tsx line 117). -/
def sqliteHeaderBytes : List Nat :=
  [0x53, 0x51, 0x4c, 0x69, 0x74, 0x65, 0x20, 0x66, 0x6f, 0x72, 0x6d, 0x61, 0x74, 0x20, 0x33]

/-- The header-validation loop of handleUnlock (App.tsx lines 117-124):
isValid stays true iff for every index i below 15 the decrypted buffer has
an i-th byte equal to the signature byte (a missing index compares unequal
in the source, because indexing past the end yields undefined). -/
def checkSqliteHeader (dbData : List Nat) : Bool :=
  (List.range sqliteHeaderBytes.length).all fun i =>
    dbData.get? i == sqliteHeaderBytes.get? i

/-- Error banner set by the handleUnlock catch block (App.tsx line 135). -/
def unlockFailMsg : String := "Incorrect password or corrupted file."

/-- Error banner set by the handleOpen catch block. -/
def openFailMsg (e : String) : String := "Failed to open file: " ++ e

/-- Message of the error thrown by the second-variant handleOpen when the
provider read yields null. -/
def nullReadMsg : String := "Could not read file content. The file might be corrupted or inaccessible."

/-- Error banner set by the handleCreatePassword catch block. -/
def createFailMsg (e : String) : String := "Failed to create database: " ++ e

/-- handleUnlock (App.tsx lines 99-140) as a function of the decryption
outcome and the importDB outcome.  Steps, in source order: bail out when no
container bytes are stored; clear the error; slice the first 16 container
bytes as the salt and store it in the session; derive the key; decrypt the
remainder; validate the SQLite header; import and move to READY.  Any
failure (decryption, header, import) lands in the catch block, which sets
the error banner and resets the scratch database but touches no other
session field. -/
def handleUnlock (kdf : String → List Nat → String)
    (dec : List Nat → String → Option (List Nat)) (importOk : Bool)
    (password : String) (st : AppSt) : AppSt :=
  match st.encryptedData with
  | none => st
  | some ed =>
    let s := ed.take 16
    let key := kdf password s
    let st1 : AppSt := { st with error := "", salt := some s, loading := false }
    match dec (ed.drop 16) key with
    | none => { st1 with error := unlockFailMsg }
    | some dbData =>
      if checkSqliteHeader dbData then
        if importOk then { st1 with masterKey := some key, state := AppState.READY }
        else { st1 with error := unlockFailMsg }
      else { st1 with error := unlockFailMsg }

/-- handleLogout (App.tsx lines 193-198): clear master key, salt and cached
container bytes and return to the welcome screen. -/
def handleLogout (st : AppSt) : AppSt :=
  { st with masterKey := none, salt := none, encryptedData := none,
            state := AppState.WELCOME }

/-- handleCreatePassword (App.tsx lines 142-166) as a function of the fresh
random salt draw and the initDB / initial-sync outcomes: store the fresh
salt, derive the key, initialize the fresh store, store the key, perform the
initial sync, and move to READY; any failure lands in the catch block which
sets the error banner. -/
def handleCreatePassword (kdf : String → List Nat → String)
    (freshSalt : List Nat) (initOk syncOk : Bool)
    (password : String) (st : AppSt) : AppSt :=
  let key := kdf password freshSalt
  let st1 : AppSt := { st with salt := some freshSalt, loading := false }
  if initOk then
    let st2 : AppSt := { st1 with masterKey := some key }
    if syncOk then { st2 with state := AppState.READY }
    else { st2 with error := createFailMsg "e" }
  else { st1 with error := createFailMsg "e" }

/-- The container bytes assembled by performSync (App.tsx lines 168-177):
salt followed by the encrypted payload (finalData.set(s);
finalData.set(encrypted, s.length)). -/
def wrapContainer (s payload : List Nat) : List Nat :=
  s ++ payload

/-- performSync (App.tsx lines 168-177) as the pure container it writes:
export the database image, encrypt it under the session key with a fresh
IV, and prepend the session salt. -/
def performSyncData (enc : String → List Nat → List Nat) (iv : List Nat)
    (k : String) (s : List Nat) (dbData : List Nat) : List Nat :=
  wrapContainer s (encryptData enc iv dbData k)

/-- handleSync (App.tsx lines 179-191) as a function of the write outcome:
a no-op unless both master key and salt are present; on a write failure the
error is alerted only when the sync is not silent; a silent sync never
changes any state field. -/
def handleSync (silent : Bool) (writeOutcome : Except String Unit)
    (st : AppSt) : AppSt :=
  match st.masterKey, st.salt with
  | some _, some _ =>
    match writeOutcome with
    | Except.ok _ => if silent then st else { st with loading := false }
    | Except.error e =>
      if silent then st
      else { st with lastAlert := some ("Sync failed: " ++ e), loading := false }
  | _, _ => st

/-- SafProvider.read (SafProvider.ts lines 44-64): resolves to null when no
file URI is selected, otherwise returns the file bytes or propagates the
read failure. -/
def safRead (fileUri : Option String) (content : Except String (List Nat)) :
    Except String (Option (List Nat)) :=
  match fileUri with
  | none => Except.ok none
  | some _ => content.map some

/-- The lowercase dot-db extension check of the first-variant handleOpen
(App.tsx line 52): the lowercased file name must end in dot-d-b, stated
over the character list. -/
def endsWithDb (fileName : String) : Bool :=
  (fileName.data.map Char.toLower).reverse.take 3 == ['b', 'd', '.']

/-- First-variant handleOpen (App.tsx lines 26-76) as a function of the
document-picker outcome (uri and file name, or none when canceled) and the
provider read outcome: a canceled pick or a bad extension leaves the state
unchanged; a non-empty read stores the container bytes and moves to UNLOCK;
an empty or null read moves to CREATE_PASSWORD; a thrown read error sets
the error banner and stays on the current (welcome) screen. -/
def handleOpenV1 (pick : Option (String × String))
    (readResult : Except String (Option (List Nat))) (st : AppSt) : AppSt :=
  let st1 : AppSt := { st with error := "", loading := false }
  match pick with
  | none => st1
  | some (_, fileName) =>
    if endsWithDb fileName then
      match readResult with
      | Except.error e => { st1 with error := openFailMsg e }
      | Except.ok (some bs) =>
        if bs.length > 0 then
          { st1 with encryptedData := some bs, state := AppState.UNLOCK }
        else { st1 with state := AppState.CREATE_PASSWORD }
      | Except.ok none => { st1 with state := AppState.CREATE_PASSWORD }
    else { st1 with lastAlert := some "Invalid File" }

/-- Second-variant handleOpen (App.tsx lines 280-317) as a function of the
native picker outcome and the provider read outcome: a canceled pick leaves
the state unchanged; a non-empty read stores the container bytes and moves
to UNLOCK; an empty (zero-byte) read moves to CREATE_PASSWORD; a null read
throws (caught by the same catch block as a read failure), so both set the
error banner and stay on the current (welcome) screen. -/
def handleOpenV2 (pick : Option String)
    (readResult : Except String (Option (List Nat))) (st : AppSt) : AppSt :=
  let st1 : AppSt := { st with error := "", loading := false }
  match pick with
  | none => st1
  | some _ =>
    match readResult with
    | Except.error e => { st1 with error := openFailMsg e }
    | Except.ok (some bs) =>
      if bs.length > 0 then
        { st1 with encryptedData := some bs, state := AppState.UNLOCK }
      else { st1 with state := AppState.CREATE_PASSWORD }
    | Except.ok none => { st1 with error := openFailMsg ("Error: " ++ nullReadMsg) }

/-- Degenerate stand-in for the abstract PBKDF2 parameter, used to
instantiate theorems on concrete inputs. -/
def trivialPbkdf2 : Hasher → String → List Nat → Nat → Nat → String :=
  fun _ _ _ _ _ => "key"

/-- Identity block transform, a key-independent involutive stand-in for the
abstract AES block transform, used to instantiate theorems on concrete
inputs. -/
def idBlockCipher : String → List Nat → List Nat :=
  fun _ b => b

/-- Stand-in decryption outcome that always fails, modelling a decryption
error, used to instantiate theorems on concrete inputs. -/
def alwaysFailDecrypt : List Nat → String → Option (List Nat) :=
  fun _ _ => none

/-- Stand-in decryption outcome that always yields exactly the SQLite
header signature, used to instantiate theorems on concrete inputs. -/
def headerDecrypt : List Nat → String → Option (List Nat) :=
  fun _ _ => some sqliteHeaderBytes

/-- Concrete session state sitting on the unlock screen with a 32-byte
container loaded and no session key or salt, used to instantiate theorems
on concrete inputs. -/
def unlockScreenState : AppSt :=
  { state := AppState.UNLOCK, loading := false, error := "", lastAlert := none,
    encryptedData := some (List.replicate 32 7), masterKey := none, salt := none }

/-- Concrete session state in READY with a session key and salt, used to
instantiate theorems on concrete inputs. -/
def readyState : AppSt :=
  { state := AppState.READY, loading := false, error := "", lastAlert := none,
    encryptedData := some (List.replicate 32 7), masterKey := some "key",
    salt := some (List.replicate 16 5) }

/-- Concrete session state on the welcome screen with nothing loaded, used
to instantiate theorems on concrete inputs. -/
def welcomeState : AppSt :=
  { state := AppState.WELCOME, loading := false, error := "", lastAlert := none,
    encryptedData := none, masterKey := none, salt := none }

theorem xorBytes_length (a b : List Nat) :
    (xorBytes a b).length = min a.length b.length := by
  simp [xorBytes]

theorem xorBytes_xorBytes (a : List Nat) :
    ∀ b : List Nat, b.length ≤ a.length → xorBytes a (xorBytes a b) = b := by
  induction a with
  | nil =>
    intro b hb
    have : b = [] := List.eq_nil_of_length_eq_zero (Nat.le_zero.mp hb)
    simp [this, xorBytes]
  | cons x a ih =>
    intro b hb
    cases b with
    | nil => simp [xorBytes]
    | cons y b =>
      simp only [xorBytes, List.zipWith] at *
      refine congrArg₂ List.cons ?_ (ih b ?_)
      · show x ^^^ (x ^^^ y) = y
        rw [← Nat.xor_assoc, Nat.xor_self, Nat.zero_xor]
      · simpa using hb

theorem xorBytes_right_cancel :
    ∀ (a b c : List Nat), a.length = b.length → a.length ≤ c.length →
      xorBytes a c = xorBytes b c → a = b := by
  intro a
  induction a with
  | nil =>
    intro b c hab _ _
    exact (List.eq_nil_of_length_eq_zero hab.symm).symm
  | cons x a ih =>
    intro b c hab hac h
    cases b with
    | nil => simp at hab
    | cons y b =>
      cases c with
      | nil => simp at hac
      | cons z c =>
        simp only [xorBytes, List.zipWith, List.cons.injEq] at h
        obtain ⟨hxy, hrest⟩ := h
        have hx : x = y := by
          have h2 : x ^^^ z = y ^^^ z := hxy
          have e1 : x = x ^^^ z ^^^ z := by
            rw [Nat.xor_assoc, Nat.xor_self, Nat.xor_zero]
          have e2 : y = y ^^^ z ^^^ z := by
            rw [Nat.xor_assoc, Nat.xor_self, Nat.xor_zero]
          rw [e1, e2, h2]
        have hb : a = b := by
          refine ih b c ?_ ?_ hrest
          · simpa using hab
          · simpa using Nat.le_of_succ_le_succ hac
        rw [hx, hb]

theorem effectiveIv_length (iv : List Nat) (h : iv.length = 12) :
    (effectiveIv iv).length = 16 := by
  simp [effectiveIv, h]

theorem effectiveIv_injective (iv₁ iv₂ : List Nat)
    (h : effectiveIv iv₁ = effectiveIv iv₂) : iv₁ = iv₂ :=
  List.append_cancel_right h

theorem chunk16_nil : chunk16 [] = [] := by
  rw [chunk16]
  rfl

theorem chunk16_cons (bs : List Nat) (h : bs ≠ []) :
    chunk16 bs = bs.take 16 :: chunk16 (bs.drop 16) := by
  rw [chunk16]
  simp [h]

theorem flatten_length_of_blocks (cs : List (List Nat))
    (h : ∀ c ∈ cs, c.length = 16) : cs.flatten.length = 16 * cs.length := by
  induction cs with
  | nil => simp
  | cons c cs ih =>
    have hc : c.length = 16 := h c (List.mem_cons_self c cs)
    have := ih fun x hx => h x (List.mem_cons_of_mem c hx)
    simp [hc, this]
    ring

theorem chunk16_structure (k : Nat) :
    ∀ bs : List Nat, bs.length = 16 * k →
      (chunk16 bs).flatten = bs ∧ (∀ c ∈ chunk16 bs, c.length = 16) ∧
        (chunk16 bs).length = k := by
  induction k with
  | zero =>
    intro bs hbs
    have : bs = [] := List.eq_nil_of_length_eq_zero (by simpa using hbs)
    simp [this, chunk16_nil]
  | succ k ih =>
    intro bs hbs
    have h16 : 16 ≤ bs.length := by omega
    have hne : bs ≠ [] := by
      intro h
      subst h
      simp at h16
    have hdrop : (bs.drop 16).length = 16 * k := by
      simp [List.length_drop, hbs]
      omega
    obtain ⟨ihf, ihm, ihl⟩ := ih (bs.drop 16) hdrop
    rw [chunk16_cons bs hne]
    refine ⟨?_, ?_, ?_⟩
    · simp [ihf, List.take_append_drop]
    · intro c hc
      rcases List.mem_cons.mp hc with hc | hc
      · subst hc
        simp [List.length_take]
        omega
      · exact ihm c hc
    · simp [ihl]

theorem chunk16_flatten (cs : List (List Nat))
    (h : ∀ c ∈ cs, c.length = 16) : chunk16 cs.flatten = cs := by
  induction cs with
  | nil => simpa using chunk16_nil
  | cons c cs ih =>
    have hc : c.length = 16 := h c (List.mem_cons_self c cs)
    have hrest : ∀ x ∈ cs, x.length = 16 :=
      fun x hx => h x (List.mem_cons_of_mem c hx)
    have hne : c ++ cs.flatten ≠ [] := by
      intro hcontra
      have := congrArg List.length hcontra
      simp [hc] at this
    simp only [List.flatten_cons]
    rw [chunk16_cons _ hne, List.take_left' hc, List.drop_left' hc, ih hrest]

theorem pkcs7pad_length (bs : List Nat) :
    (pkcs7pad bs).length = 16 * (bs.length / 16 + 1) := by
  simp [pkcs7pad]
  omega

theorem pkcs7unpad_pkcs7pad (bs : List Nat) :
    pkcs7unpad (pkcs7pad bs) = some bs := by
  set p := 16 - bs.length % 16 with hp
  have hmod : bs.length % 16 < 16 := Nat.mod_lt _ (by omega)
  have hp1 : 1 ≤ p := by omega
  have hp16 : p ≤ 16 := by omega
  have hlen : (pkcs7pad bs).length = bs.length + p := by
    simp [pkcs7pad]
  have hlast : (pkcs7pad bs).getLastD 0 = p := by
    obtain ⟨q, hq⟩ : ∃ q, p = q + 1 := ⟨p - 1, by omega⟩
    rw [pkcs7pad, ← hp, hq, List.replicate_succ', ← List.append_assoc]
    rw [List.getLastD_eq_getLast?, List.getLast?_concat]
    rfl
  rw [pkcs7unpad]
  simp only [hlast, hlen]
  have hsub : bs.length + p - p = bs.length := by omega
  rw [if_neg (by omega), hsub, pkcs7pad, ← hp]
  rw [List.drop_left' rfl, if_pos rfl, List.take_left' rfl]

theorem cbcEncryptBlocks_blocks (E : List Nat → List Nat)
    (hE : ∀ b, b.length = 16 → (E b).length = 16) :
    ∀ (blocks : List (List Nat)) (iv : List Nat), iv.length = 16 →
      (∀ b ∈ blocks, b.length = 16) →
      (∀ c ∈ cbcEncryptBlocks E iv blocks, c.length = 16) ∧
        (cbcEncryptBlocks E iv blocks).length = blocks.length := by
  intro blocks
  induction blocks with
  | nil =>
    intro iv _ _
    simp [cbcEncryptBlocks]
  | cons b rest ih =>
    intro iv hiv hmem
    have hb : b.length = 16 := hmem b (List.mem_cons_self b rest)
    have hxor : (xorBytes iv b).length = 16 := by
      simp [xorBytes_length, hiv, hb]
    have hc : (E (xorBytes iv b)).length = 16 := hE _ hxor
    obtain ⟨ihm, ihl⟩ := ih (E (xorBytes iv b)) hc
      (fun x hx => hmem x (List.mem_cons_of_mem b hx))
    constructor
    · intro c hcmem
      rcases List.mem_cons.mp hcmem with hcm | hcm
      · rw [hcm]; exact hc
      · exact ihm c hcm
    · simp [cbcEncryptBlocks, ihl]

theorem cbcDecryptBlocks_cbcEncryptBlocks (E D : List Nat → List Nat)
    (hED : ∀ b, D (E b) = b)
    (hE : ∀ b, b.length = 16 → (E b).length = 16) :
    ∀ (blocks : List (List Nat)) (iv : List Nat), iv.length = 16 →
      (∀ b ∈ blocks, b.length = 16) →
      cbcDecryptBlocks D iv (cbcEncryptBlocks E iv blocks) = blocks := by
  intro blocks
  induction blocks with
  | nil =>
    intro iv _ _
    simp [cbcEncryptBlocks, cbcDecryptBlocks]
  | cons b rest ih =>
    intro iv hiv hmem
    have hb : b.length = 16 := hmem b (List.mem_cons_self b rest)
    have hxor : (xorBytes iv b).length = 16 := by
      simp [xorBytes_length, hiv, hb]
    have hc : (E (xorBytes iv b)).length = 16 := hE _ hxor
    simp only [cbcEncryptBlocks, cbcDecryptBlocks]
    rw [hED, xorBytes_xorBytes iv b (by omega)]
    exact congrArg (List.cons b)
      (ih (E (xorBytes iv b)) hc fun x hx => hmem x (List.mem_cons_of_mem b hx))

/-- Claim C1: for every plaintext byte buffer P, password W and 16-byte
salt, decrypting the payload produced by encryptData(P, deriveKey(W, salt))
with the same derived key returns exactly P: encrypt prepends the fresh
12-byte IV, decrypt strips the first 12 bytes as the IV, CBC-decrypts and
un-pads, recovering the original bytes.  The AES block transform is
abstract; the hypotheses state that block decryption under the derived key
inverts block encryption and that block encryption preserves the 16-byte
block size. -/
theorem c1_encrypt_decrypt_round_trip
    (pbkdf2 : Hasher → String → List Nat → Nat → Nat → String)
    (enc dec : String → List Nat → List Nat) (W : String)
    (salt : List Nat) (hsalt : salt.length = 16)
    (iv : List Nat) (hiv : iv.length = 12) (P : List Nat)
    (hED : ∀ b, dec (deriveKey pbkdf2 W salt) (enc (deriveKey pbkdf2 W salt) b) = b)
    (hlen : ∀ b, b.length = 16 → (enc (deriveKey pbkdf2 W salt) b).length = 16) :
    decryptData dec (encryptData enc iv P (deriveKey pbkdf2 W salt))
      (deriveKey pbkdf2 W salt) = some P := by
  obtain ⟨hf, hm, hl⟩ :=
    chunk16_structure (P.length / 16 + 1) (pkcs7pad P) (pkcs7pad_length P)
  have hEiv := effectiveIv_length iv hiv
  obtain ⟨hcm, hcl⟩ :=
    cbcEncryptBlocks_blocks (enc (deriveKey pbkdf2 W salt)) hlen
      (chunk16 (pkcs7pad P)) (effectiveIv iv) hEiv hm
  simp only [decryptData, encryptData]
  rw [List.take_left' hiv, List.drop_left' hiv, chunk16_flatten _ hcm,
    cbcDecryptBlocks_cbcEncryptBlocks _ _ hED hlen _ _ hEiv hm, hf,
    pkcs7unpad_pkcs7pad]

/-- Witness for C1 at a concrete plaintext, password, salt and IV, with the
identity block transform standing in for AES. -/
theorem c1_witness :
    decryptData idBlockCipher
      (encryptData idBlockCipher (List.replicate 12 0) [1, 2, 3]
        (deriveKey trivialPbkdf2 "pw" (List.replicate 16 5)))
      (deriveKey trivialPbkdf2 "pw" (List.replicate 16 5)) = some [1, 2, 3] :=
  c1_encrypt_decrypt_round_trip trivialPbkdf2 idBlockCipher idBlockCipher "pw"
    (List.replicate 16 5) (by simp) (List.replicate 12 0) (by simp) [1, 2, 3]
    (fun _ => rfl) (fun _ h => h)

/-- Claim C3: decryptData fails (returns none) exactly when the CBC-decrypted
bytes do not un-pad correctly; when the padding does validate, decryptData
returns the un-padded bytes, so, the baseline design having no integrity
tag, a padding failure is the only wrong-password signal at the cipher
level. -/
theorem c3_padding_failure_is_the_only_cipher_signal
    (dec : String → List Nat → List Nat) (data : List Nat) (key : String) :
    (decryptData dec data key = none ↔
      pkcs7unpad (cbcRawDecrypt dec data key) = none) ∧
    decryptData dec data key = pkcs7unpad (cbcRawDecrypt dec data key) := by
  exact ⟨Iff.rfl, rfl⟩

/-- Claim C9: deriveKey is a pure function of password and salt that invokes
PBKDF2 with the SHA256 hasher, iteration count 100000 (which meets the
required lower bound of 100000) and a 256-bit (8-word) output key, so equal
password-salt pairs always give the same key. -/
theorem c9_deriveKey_deterministic_parameters
    (pbkdf2 : Hasher → String → List Nat → Nat → Nat → String)
    (p : String) (s : List Nat) :
    deriveKey pbkdf2 p s = pbkdf2 Hasher.SHA256 p s 100000 (256 / 32) ∧
    100000 ≤ 100000 ∧ (256 / 32) * 32 = 256 ∧
    (∀ (p₂ : String) (s₂ : List Nat), p₂ = p → s₂ = s →
      deriveKey pbkdf2 p₂ s₂ = deriveKey pbkdf2 p s) := by
  refine ⟨rfl, Nat.le_refl _, by norm_num, ?_⟩
  intro p₂ s₂ hp hs
  rw [hp, hs]

/-- Witness for C9 at a concrete PBKDF2 stand-in, password and salt. -/
theorem c9_witness :
    deriveKey trivialPbkdf2 "pw" [1, 2] =
      trivialPbkdf2 Hasher.SHA256 "pw" [1, 2] 100000 (256 / 32) ∧
    deriveKey trivialPbkdf2 "pw" [1, 2] = deriveKey trivialPbkdf2 "pw" [1, 2] :=
  ⟨(c9_deriveKey_deterministic_parameters trivialPbkdf2 "pw" [1, 2]).1,
    (c9_deriveKey_deterministic_parameters trivialPbkdf2 "pw" [1, 2]).2.2.2
      "pw" [1, 2] rfl rfl⟩

/-- Claim C8: encryptData places the random 12-byte IV draw as the first 12
bytes of its output, and two encryptions of the same plaintext under the
same key whose random draws differ produce outputs that differ both in the
12-byte IV prefix and in the ciphertext part after it (the AES block
transform being injective under a fixed key and block-size preserving). -/
theorem c8_distinct_ivs_give_distinct_outputs
    (enc : String → List Nat → List Nat) (k : String)
    (hinj : ∀ a b, enc k a = enc k b → a = b)
    (hlen : ∀ b, b.length = 16 → (enc k b).length = 16)
    (iv₁ iv₂ : List Nat) (h1 : iv₁.length = 12) (h2 : iv₂.length = 12)
    (hne : iv₁ ≠ iv₂) (data : List Nat) :
    (encryptData enc iv₁ data k).take 12 = iv₁ ∧
    (encryptData enc iv₂ data k).take 12 = iv₂ ∧
    (encryptData enc iv₁ data k).take 12 ≠ (encryptData enc iv₂ data k).take 12 ∧
    (encryptData enc iv₁ data k).drop 12 ≠ (encryptData enc iv₂ data k).drop 12 := by
  have ht1 : (encryptData enc iv₁ data k).take 12 = iv₁ := by
    simp only [encryptData]
    exact List.take_left' h1
  have ht2 : (encryptData enc iv₂ data k).take 12 = iv₂ := by
    simp only [encryptData]
    exact List.take_left' h2
  have hd1 : (encryptData enc iv₁ data k).drop 12 =
      (cbcEncryptBlocks (enc k) (effectiveIv iv₁) (chunk16 (pkcs7pad data))).flatten := by
    simp only [encryptData]
    exact List.drop_left' h1
  have hd2 : (encryptData enc iv₂ data k).drop 12 =
      (cbcEncryptBlocks (enc k) (effectiveIv iv₂) (chunk16 (pkcs7pad data))).flatten := by
    simp only [encryptData]
    exact List.drop_left' h2
  obtain ⟨hf, hm, hl⟩ :=
    chunk16_structure (data.length / 16 + 1) (pkcs7pad data) (pkcs7pad_length data)
  have hEiv1 := effectiveIv_length iv₁ h1
  have hEiv2 := effectiveIv_length iv₂ h2
  refine ⟨ht1, ht2, by rw [ht1, ht2]; exact hne, ?_⟩
  rw [hd1, hd2]
  cases hblocks : chunk16 (pkcs7pad data) with
  | nil =>
    rw [hblocks] at hl
    simp at hl
  | cons blk rest =>
    have hblk : blk.length = 16 := by
      apply hm
      rw [hblocks]
      exact List.mem_cons_self blk rest
    have hx1 : (xorBytes (effectiveIv iv₁) blk).length = 16 := by
      simp [xorBytes_length, hEiv1, hblk]
    have hx2 : (xorBytes (effectiveIv iv₂) blk).length = 16 := by
      simp [xorBytes_length, hEiv2, hblk]
    have hc1 := hlen _ hx1
    have hc2 := hlen _ hx2
    intro heq
    simp only [cbcEncryptBlocks, List.flatten_cons] at heq
    have hfirst : enc k (xorBytes (effectiveIv iv₁) blk) =
        enc k (xorBytes (effectiveIv iv₂) blk) := by
      have t := congrArg (List.take 16) heq
      rwa [List.take_left' hc1, List.take_left' hc2] at t
    have hxeq := hinj _ _ hfirst
    have he : effectiveIv iv₁ = effectiveIv iv₂ :=
      xorBytes_right_cancel _ _ blk (by rw [hEiv1, hEiv2])
        (by rw [hEiv1, hblk]) hxeq
    exact hne (effectiveIv_injective _ _ he)

/-- Witness for C8 at two concrete distinct IVs, a concrete plaintext and
the identity block transform standing in for AES. -/
theorem c8_witness :
    (encryptData idBlockCipher (List.replicate 12 0) [9] "key").take 12 =
        List.replicate 12 0 ∧
    (encryptData idBlockCipher (1 :: List.replicate 11 0) [9] "key").take 12 =
        1 :: List.replicate 11 0 ∧
    (encryptData idBlockCipher (List.replicate 12 0) [9] "key").take 12 ≠
      (encryptData idBlockCipher (1 :: List.replicate 11 0) [9] "key").take 12 ∧
    (encryptData idBlockCipher (List.replicate 12 0) [9] "key").drop 12 ≠
      (encryptData idBlockCipher (1 :: List.replicate 11 0) [9] "key").drop 12 :=
  c8_distinct_ivs_give_distinct_outputs idBlockCipher "key"
    (fun _ _ h => h) (fun _ h => h) (List.replicate 12 0)
    (1 :: List.replicate 11 0) (by simp) (by simp) (by decide) [9]

/-- Claim C10: for a plaintext of length L the encryptData output is the
12-byte IV plus the PKCS7-padded ciphertext, of total length
12 + 16 * (L / 16 + 1) — at least one padding byte is always added and no
integrity tag is appended — and the container written by a sync (salt
followed by that payload) has total length 28 + 16 * (L / 16 + 1). -/
theorem c10_payload_and_container_length
    (enc : String → List Nat → List Nat) (k : String)
    (hlen : ∀ b, b.length = 16 → (enc k b).length = 16)
    (iv : List Nat) (hiv : iv.length = 12)
    (s : List Nat) (hs : s.length = 16) (data : List Nat) :
    (encryptData enc iv data k).length = 12 + 16 * (data.length / 16 + 1) ∧
    (performSyncData enc iv k s data).length = 28 + 16 * (data.length / 16 + 1) := by
  obtain ⟨hf, hm, hl⟩ :=
    chunk16_structure (data.length / 16 + 1) (pkcs7pad data) (pkcs7pad_length data)
  have hEiv := effectiveIv_length iv hiv
  obtain ⟨hcm, hcl⟩ :=
    cbcEncryptBlocks_blocks (enc k) hlen (chunk16 (pkcs7pad data))
      (effectiveIv iv) hEiv hm
  have hflat :
      (cbcEncryptBlocks (enc k) (effectiveIv iv) (chunk16 (pkcs7pad data))).flatten.length =
        16 * (data.length / 16 + 1) := by
    rw [flatten_length_of_blocks _ hcm, hcl, hl]
  constructor
  · simp [encryptData, hiv, hflat]
  · simp [performSyncData, wrapContainer, encryptData, hs, hiv, hflat]
    omega

theorem checkSqliteHeader_iff (d : List Nat) :
    checkSqliteHeader d = true ↔ d.take 15 = sqliteHeaderBytes := by
  have hlen : sqliteHeaderBytes.length = 15 := by rfl
  simp only [checkSqliteHeader, List.all_eq_true, List.mem_range, beq_iff_eq, hlen]
  constructor
  · intro h
    apply List.ext_get?
    intro n
    by_cases hn : n < 15
    · rw [List.get?_take hn]
      exact h n hn
    · have h1 : (d.take 15).get? n = none := by
        apply List.get?_eq_none.mpr
        have := List.length_take 15 d
        omega
      have h2 : sqliteHeaderBytes.get? n = none := by
        apply List.get?_eq_none.mpr
        omega
      rw [h1, h2]
  · intro h i hi
    rw [← h, List.get?_take hi]

theorem handleSync_preserves (silent : Bool) (outcome : Except String Unit)
    (st : AppSt) :
    (handleSync silent outcome st).state = st.state ∧
    (handleSync silent outcome st).masterKey = st.masterKey ∧
    (handleSync silent outcome st).salt = st.salt ∧
    (handleSync silent outcome st).error = st.error ∧
    (handleSync silent outcome st).encryptedData = st.encryptedData := by
  cases hmk : st.masterKey <;> cases hsl : st.salt <;>
    cases outcome <;> cases silent <;> simp [handleSync, hmk, hsl]

/-- Claim C2 (evaluation at the failing input): after an unlock attempt on
a loaded 32-byte container whose decryption fails, the resulting session
state still holds the salt sliced from the container while the master key
is absent, and the error banner is shown — the catch block of handleUnlock
resets only the scratch database and never clears the salt stored before
decryption, so the both-present-or-both-absent invariant is violated and
the session state is not fully cleared. -/
theorem c2_failed_unlock_retains_salt :
    (handleUnlock (fun _ _ => "key") alwaysFailDecrypt true "pw" unlockScreenState).salt =
      some (List.replicate 16 7) ∧
    (handleUnlock (fun _ _ => "key") alwaysFailDecrypt true "pw" unlockScreenState).masterKey =
      none ∧
    (handleUnlock (fun _ _ => "key") alwaysFailDecrypt true "pw" unlockScreenState).error =
      unlockFailMsg ∧
    (handleLogout (handleUnlock (fun _ _ => "key") alwaysFailDecrypt true "pw"
      unlockScreenState)).salt = none ∧
    (handleLogout (handleUnlock (fun _ _ => "key") alwaysFailDecrypt true "pw"
      unlockScreenState)).masterKey = none := by
  refine ⟨?_, rfl, rfl, rfl, rfl⟩
  decide

/-- Claim C4: the unlock step accepts a decrypted buffer exactly when its
first 15 bytes equal the fixed SQLite signature; on a match (and a
successful import) the session moves to READY, while any mismatch is
rejected as wrong password or corrupt — the error banner is set, the
screen state is unchanged (hence not READY) and no master key is stored. -/
theorem c4_sqlite_header_gate
    (kdf : String → List Nat → String)
    (dec : List Nat → String → Option (List Nat)) (importOk : Bool)
    (pw : String) (st : AppSt) (ed d : List Nat)
    (hst : st.encryptedData = some ed)
    (hdec : dec (ed.drop 16) (kdf pw (ed.take 16)) = some d) :
    (checkSqliteHeader d = true ↔ d.take 15 = sqliteHeaderBytes) ∧
    (d.take 15 = sqliteHeaderBytes → importOk = true →
      (handleUnlock kdf dec importOk pw st).state = AppState.READY) ∧
    (d.take 15 ≠ sqliteHeaderBytes →
      (handleUnlock kdf dec importOk pw st).state = st.state ∧
      (handleUnlock kdf dec importOk pw st).masterKey = st.masterKey ∧
      (handleUnlock kdf dec importOk pw st).error = unlockFailMsg) := by
  refine ⟨checkSqliteHeader_iff d, ?_, ?_⟩
  · intro hd himp
    have hh : checkSqliteHeader d = true := (checkSqliteHeader_iff d).mpr hd
    subst himp
    simp [handleUnlock, hst, hdec, hh]
  · intro hd
    have hh : checkSqliteHeader d = false := by
      cases hcase : checkSqliteHeader d
      · rfl
      · exact absurd ((checkSqliteHeader_iff d).mp hcase) hd
    simp [handleUnlock, hst, hdec, hh]

/-- Witness for C4 on a concrete state whose container decrypts to exactly
the SQLite signature: the unlock succeeds and the session reaches READY. -/
theorem c4_witness :
    (handleUnlock (fun _ _ => "key") headerDecrypt true "pw" unlockScreenState).state =
      AppState.READY :=
  (c4_sqlite_header_gate (fun _ _ => "key") headerDecrypt true "pw"
      unlockScreenState (List.replicate 32 7) sqliteHeaderBytes rfl rfl).2.1
    (by decide) rfl

/-- Claim C5: when opening an existing database, an empty (zero-byte) read
result moves the orchestrator to the password-creation screen, a non-empty
result stores the raw container bytes and moves to the unlock screen, and a
null or failed read sets the open-error banner and stays on the welcome
screen.  The second-variant handler realizes all four cases directly; the
first-variant handler reads through SafProvider.read, which returns null
only when no file is selected — impossible here since the picked file is
selected before reading — and its reachable read outcomes behave
identically. -/
theorem c5_open_existing_read_branches (st : AppSt)
    (hw : st.state = AppState.WELCOME) (uri fileName : String)
    (bs : List Nat) (e : String) (hdb : endsWithDb fileName = true) :
    (bs = [] →
      (handleOpenV2 (some uri) (Except.ok (some bs)) st).state =
        AppState.CREATE_PASSWORD) ∧
    (bs ≠ [] →
      (handleOpenV2 (some uri) (Except.ok (some bs)) st).state = AppState.UNLOCK ∧
      (handleOpenV2 (some uri) (Except.ok (some bs)) st).encryptedData = some bs) ∧
    ((handleOpenV2 (some uri) (Except.ok none) st).state = AppState.WELCOME ∧
      (handleOpenV2 (some uri) (Except.ok none) st).error =
        openFailMsg ("Error: " ++ nullReadMsg)) ∧
    ((handleOpenV2 (some uri) (Except.error e) st).state = AppState.WELCOME ∧
      (handleOpenV2 (some uri) (Except.error e) st).error = openFailMsg e) ∧
    (∀ c : Except String (List Nat), safRead (some uri) c ≠ Except.ok none) ∧
    (bs = [] →
      (handleOpenV1 (some (uri, fileName)) (safRead (some uri) (Except.ok bs)) st).state =
        AppState.CREATE_PASSWORD) ∧
    (bs ≠ [] →
      (handleOpenV1 (some (uri, fileName)) (safRead (some uri) (Except.ok bs)) st).state =
        AppState.UNLOCK ∧
      (handleOpenV1 (some (uri, fileName)) (safRead (some uri) (Except.ok bs)) st).encryptedData =
        some bs) ∧
    ((handleOpenV1 (some (uri, fileName)) (safRead (some uri) (Except.error e)) st).state =
        AppState.WELCOME ∧
      (handleOpenV1 (some (uri, fileName)) (safRead (some uri) (Except.error e)) st).error =
        openFailMsg e) := by
  refine ⟨?_, ?_, ?_, ?_, ?_, ?_, ?_, ?_⟩
  · intro hbs
    subst hbs
    simp [handleOpenV2]
  · intro hbs
    have : bs.length > 0 := List.length_pos.mpr hbs
    simp [handleOpenV2, this]
  · simp [handleOpenV2, hw]
  · simp [handleOpenV2, hw]
  · intro c
    cases c <;> simp [safRead, Except.map]
  · intro hbs
    subst hbs
    simp [handleOpenV1, safRead, Except.map, hdb]
  · intro hbs
    have : bs.length > 0 := List.length_pos.mpr hbs
    simp [handleOpenV1, safRead, Except.map, hdb, this]
  · simp [handleOpenV1, safRead, Except.map, hdb, hw]

/-- Witness for C5 on the concrete welcome state with a non-empty one-byte
read and a concrete failing read. -/
theorem c5_witness :
    (handleOpenV2 (some "u") (Except.ok (some [1])) welcomeState).state =
      AppState.UNLOCK ∧
    (handleOpenV2 (some "u") (Except.ok (some [1])) welcomeState).encryptedData =
      some [1] ∧
    (handleOpenV2 (some "u") (Except.error "boom") welcomeState).state =
      AppState.WELCOME :=
  ⟨((c5_open_existing_read_branches welcomeState rfl "u" "a.db" [1] "boom"
      (by decide)).2.1 (by decide)).1,
    ((c5_open_existing_read_branches welcomeState rfl "u" "a.db" [1] "boom"
      (by decide)).2.1 (by decide)).2,
    (c5_open_existing_read_branches welcomeState rfl "u" "a.db" [1] "boom"
      (by decide)).2.2.2.1.1⟩

/-- Claim C6: a write failure during a silent auto-save sync is never
surfaced — the resulting state is exactly the pre-sync state, so the
application stays in READY with key and salt unchanged and no alert —
while the same failure during an explicit user-triggered sync raises the
sync-failed alert, again without touching the session state. -/
theorem c6_silent_sync_swallows_failures (st : AppSt)
    (hready : st.state = AppState.READY) (k : String) (s : List Nat)
    (hk : st.masterKey = some k) (hs : st.salt = some s) (e : String) :
    (∀ outcome : Except String Unit, handleSync true outcome st = st) ∧
    (handleSync true (Except.error e) st).state = AppState.READY ∧
    (handleSync true (Except.error e) st).lastAlert = st.lastAlert ∧
    (handleSync false (Except.error e) st).lastAlert =
      some ("Sync failed: " ++ e) ∧
    (handleSync false (Except.error e) st).state = AppState.READY ∧
    (handleSync false (Except.error e) st).masterKey = some k ∧
    (handleSync false (Except.error e) st).salt = some s := by
  have hsil : ∀ outcome : Except String Unit, handleSync true outcome st = st := by
    intro outcome
    cases outcome <;> simp [handleSync, hk, hs]
  refine ⟨hsil, ?_, ?_, ?_, ?_, ?_, ?_⟩ <;>
    simp [hsil, handleSync, hk, hs, hready]

/-- Witness for C6 on the concrete READY state with a concrete write
failure. -/
theorem c6_witness :
    handleSync true (Except.error "disk full") readyState = readyState ∧
    (handleSync false (Except.error "disk full") readyState).lastAlert =
      some ("Sync failed: " ++ "disk full") :=
  ⟨(c6_silent_sync_swallows_failures readyState rfl "key" (List.replicate 16 5)
      rfl rfl "disk full").1 (Except.error "disk full"),
    (c6_silent_sync_swallows_failures readyState rfl "key" (List.replicate 16 5)
      rfl rfl "disk full").2.2.2.1⟩

/-- Claim C7: the salt of an existing container is never regenerated — a
successful unlock stores as the session salt exactly the first 16 bytes
read from the container, every container subsequently written by a sync in
READY starts with those same 16 bytes, syncing never changes the session
salt, and a fresh salt becomes the session salt only in the
create-password (database creation) handler. -/
theorem c7_salt_is_stable_after_unlock
    (kdf : String → List Nat → String)
    (dec : List Nat → String → Option (List Nat)) (pw : String) (st : AppSt)
    (ed d : List Nat) (hst : st.encryptedData = some ed) (hed : 16 ≤ ed.length)
    (hdec : dec (ed.drop 16) (kdf pw (ed.take 16)) = some d)
    (hhdr : checkSqliteHeader d = true) :
    (handleUnlock kdf dec true pw st).state = AppState.READY ∧
    (handleUnlock kdf dec true pw st).salt = some (ed.take 16) ∧
    (∀ (enc : String → List Nat → List Nat) (iv dbData : List Nat) (k : String),
      (performSyncData enc iv k (ed.take 16) dbData).take 16 = ed.take 16) ∧
    (∀ (silent : Bool) (outcome : Except String Unit),
      (handleSync silent outcome (handleUnlock kdf dec true pw st)).salt =
        (handleUnlock kdf dec true pw st).salt) ∧
    (∀ (freshSalt : List Nat) (initOk syncOk : Bool) (pw₂ : String) (st₂ : AppSt),
      (handleCreatePassword kdf freshSalt initOk syncOk pw₂ st₂).salt =
        some freshSalt) := by
  have htake : (ed.take 16).length = 16 := by
    rw [List.length_take]
    omega
  refine ⟨?_, ?_, ?_, ?_, ?_⟩
  · simp [handleUnlock, hst, hdec, hhdr]
  · simp [handleUnlock, hst, hdec, hhdr]
  · intro enc iv dbData k
    simp only [performSyncData, wrapContainer]
    exact List.take_left' htake
  · intro silent outcome
    exact (handleSync_preserves silent outcome _).2.2.1
  · intro freshSalt initOk syncOk pw₂ st₂
    cases initOk <;> cases syncOk <;> simp [handleCreatePassword]

/-- Witness for C7 on the concrete unlock-screen state whose container
decrypts to exactly the SQLite signature. -/
theorem c7_witness :
    (handleUnlock (fun _ _ => "k2") headerDecrypt true "pw" unlockScreenState).salt =
      some (List.replicate 16 7) ∧
    (performSyncData idBlockCipher (List.replicate 12 0) "k2"
      ((List.replicate 32 7).take 16) [1]).take 16 = (List.replicate 32 7).take 16 :=
  ⟨by
    have h := (c7_salt_is_stable_after_unlock (fun _ _ => "k2") headerDecrypt
      "pw" unlockScreenState (List.replicate 32 7) sqliteHeaderBytes rfl
      (by decide) rfl (by decide)).2.1
    simpa using h,
    (c7_salt_is_stable_after_unlock (fun _ _ => "k2") headerDecrypt "pw"
      unlockScreenState (List.replicate 32 7) sqliteHeaderBytes rfl (by decide)
      rfl (by decide)).2.2.1 idBlockCipher (List.replicate 12 0) [1] "k2"⟩

/-- Witness for C10 at a concrete plaintext, IV, salt and key, with the
identity block transform standing in for AES. -/
theorem c10_witness :
    (encryptData idBlockCipher (List.replicate 12 0) [1, 2, 3] "key").length =
      12 + 16 * (3 / 16 + 1) ∧
    (performSyncData idBlockCipher (List.replicate 12 0) "key"
      (List.replicate 16 5) [1, 2, 3]).length = 28 + 16 * (3 / 16 + 1) :=
  c10_payload_and_container_length idBlockCipher "key" (fun _ h => h)
    (List.replicate 12 0) (by simp) (List.replicate 16 5) (by simp) [1, 2, 3]

end SecureNotes
